import Mathlib

/-!
# Verification of the agent memory service

A shallow embedding of `agents/agent_service/lib/memory_service.py`
(class `MemoryService`), covering the data model and the operations
`store_memory`, `get_memory`, `retrieve_recent_memories`,
`retrieve_important_memories`, `_search_memories_with_keywords`,
`_search_in_memory`, `delete_memory`, `update_memory_importance` and
`summarize_agent_memories`, together with their in-memory fallback helpers.

Modelling conventions:
* Python floats are modelled as `ℚ`; Python ints as `Int`.
* Python dicts are modelled as association lists with Python `dict`
  update semantics (`upsertA` replaces in place, appends fresh keys;
  iteration order is insertion order).
* Redis is modelled by `RedisState`: the string keys
  `memory:{agent}:{id}` become pairs `(agent_id, memory_id)`, the two
  sorted sets `memory_index:{agent}` / `memory_importance:{agent}` become
  per-agent member/score lists, and `expire` calls are recorded in `ttls`.
  JSON round-tripping through `json.dumps`/`json.loads` is the identity
  on the modelled record type.
* Each operation that touches Redis takes a `redisOk : Bool` flag:
  `true` means every Redis call in the operation succeeds, `false` means
  the first Redis call raises, sending control to the `except` branch
  (this is the unavailable-backend failure mode of the source).
  A service with no configured Redis client has `redis = none`.
* Python's stable `list.sort(key=k, reverse=True)` is modelled as
  `List.insertionSort` with the relation `k b ≤ k a`: a stable sort's
  output is uniquely determined by the key relation and the input order,
  so any stable sort models Timsort faithfully.
* The Pinecone index is modelled by the log `pinecone_upserted` of
  (id, vector) pairs sent to `upsert`; all Pinecone failures are
  swallowed by the source (`_store_in_pinecone` catches every exception),
  so they never influence control flow elsewhere.  The closure
  `_upsert_to_pinecone` assigns its name `vector` without a `nonlocal`
  declaration, which under Python scoping makes `vector` a local of the
  closure: the read at the dimension check raises UnboundLocalError on
  every call.  The model makes the closure's local environment explicit
  (`readClosureLocal`) and the raised error an `Except.error`, swallowed
  by the outer handler — so the upsert log provably never grows.
-/

set_option linter.unusedVariables false

/-- Metadata values: a simplified JSON-like value type standing for the
dynamically-typed values of Python metadata dicts. -/
inductive MVal where
  | s (v : String)
  | i (v : Int)
  | b (v : Bool)
deriving DecidableEq, Repr, Inhabited

/-- A Python string-keyed dict, e.g. the `metadata` mapping of a memory. -/
abbrev Meta := List (String × MVal)

/-- Python `d.get(k)`: first binding of `k` in the association list. -/
def lookupA {α β : Type} [DecidableEq α] (k : α) : List (α × β) → Option β
  | [] => none
  | (k', v) :: rest => if k' = k then some v else lookupA k rest

/-- Python `d[k] = v`: replace in place if the key exists, else append
(Python dicts keep the original position of an updated key). -/
def upsertA {α β : Type} [DecidableEq α] (k : α) (v : β) : List (α × β) → List (α × β)
  | [] => [(k, v)]
  | (k', v') :: rest => if k' = k then (k, v) :: rest else (k', v') :: upsertA k v rest

/-- Python `del d[k]` (also used for Redis `DEL`/`ZREM`). -/
def removeA {α β : Type} [DecidableEq α] (k : α) (l : List (α × β)) : List (α × β) :=
  l.filter (fun p => decide (p.1 ≠ k))

/-- Python `str.lower()` (character-wise, which matches CPython on ASCII). -/
def pyLower (s : String) : String := String.mk (s.data.map Char.toLower)

/-- Python `q in s` (substring containment). -/
def containsSub (q s : String) : Bool := decide (q.data <:+: s.data)

/-- A memory record, as built by `store_memory` (the dict with keys
`id`, `agent_id`, `content`, `type`, `metadata`, `importance`,
`created_at`, `embedding`, `user_id`). -/
structure Memory where
  id : String
  agent_id : String
  content : String
  type : String
  metadata : Meta
  importance : ℚ
  created_at : Int
  embedding : Option (List ℚ)
  user_id : Option String
deriving DecidableEq, Repr, Inhabited

/-- The Redis tier: record store plus the two per-agent sorted sets and
the recorded TTLs (`expire` calls). -/
structure RedisState where
  records : List ((String × String) × Memory)
  ttls : List ((String × String) × Int)
  recency : List (String × List (String × Int))
  importance_idx : List (String × List (String × ℚ))
deriving DecidableEq, Repr, Inhabited

/-- A Redis instance with no keys. -/
def emptyRedis : RedisState := ⟨[], [], [], []⟩

/-- The state of a `MemoryService` instance: optional Redis client,
whether a Pinecone index is configured, the in-memory fallback cache
`self.memory_cache` (agent → id → record), and the log of vectors sent
to Pinecone `upsert`. -/
structure SState where
  redis : Option RedisState
  pinecone : Bool
  memory_cache : List (String × List (String × Memory))
  pinecone_upserted : List (String × List ℚ)
deriving DecidableEq, Repr, Inhabited

/-- `self.memory_cache.get(agent_id, {})`. -/
def getAgentCache (st : SState) (agent_id : String) : List (String × Memory) :=
  (lookupA agent_id st.memory_cache).getD []

/-- `ZADD key {member: score}` on the nested per-agent zset map. -/
def zadd {β : Type} (z : List (String × List (String × β))) (key member : String)
    (score : β) : List (String × List (String × β)) :=
  upsertA key (upsertA member score ((lookupA key z).getD [])) z

/-- `ZREM key member`. -/
def zrem {β : Type} (z : List (String × List (String × β))) (key member : String) :
    List (String × List (String × β)) :=
  upsertA key (removeA member ((lookupA key z).getD [])) z

/-- `ZREVRANGE` ordering: members sorted by score descending.  (Redis
breaks score ties by member lexicography; no claim depends on tie
order, so the model uses a stable sort on the stored order.) -/
def zscoreSortedDesc {β : Type} [LinearOrder β] (z : List (String × β)) : List (String × β) :=
  List.insertionSort (fun a b : String × β => b.2 ≤ a.2) z

/-- `ZRANGE` ordering: members sorted by score ascending. -/
def zscoreSortedAsc {β : Type} [LinearOrder β] (z : List (String × β)) : List (String × β) :=
  List.insertionSort (fun a b : String × β => a.2 ≤ b.2) z

/-- The arguments of one `store_memory` call, together with the values
the call draws from the environment: the generated uuid `id` and the
timestamp `ts = int(time.time())`. -/
structure StoreReq where
  agent_id : String
  content : String
  mtype : String
  metadata : Meta
  importance : ℚ
  user_id : Option String
  exp : Option Int
  id : String
  ts : Int
deriving DecidableEq, Repr, Inhabited

/-- The record dict built at the top of `store_memory`.  `emb` is the
embedding produced by `generate_embedding` (which, per its fallback
chain, always returns a vector); it is requested only for non-empty
content. -/
def mkMemory (req : StoreReq) (emb : List ℚ) : Memory :=
  { id := req.id
    agent_id := req.agent_id
    content := req.content
    type := req.mtype
    metadata := req.metadata
    importance := req.importance
    created_at := req.ts
    embedding := if req.content.length > 0 then some emb else none
    user_id := req.user_id }

/-- Python `int()` on a float/rational: truncation toward zero. -/
def pyTrunc (q : ℚ) : Int := if 0 ≤ q then ⌊q⌋ else ⌈q⌉

/-- `days_to_keep = int(1 + (90 - 1) * importance)` from `store_memory`. -/
def days_to_keep (importance : ℚ) : Int := pyTrunc (1 + (90 - 1) * importance)

/-- `expiry_seconds = days_to_keep * 24 * 60 * 60`. -/
def derivedExpirySeconds (importance : ℚ) : Int := days_to_keep importance * 24 * 60 * 60

/-- Python truthiness of the `expiration` argument (`if expiration:`);
note that an explicit `0` is falsy and therefore ignored. -/
def expTruthy : Option Int → Bool
  | none => false
  | some e => e != 0

/-- Python truthiness of an optional dict argument (`if metadata_filter:`,
`if metadata_updates:`); an empty dict is falsy. -/
def metaTruthy : Option Meta → Bool
  | none => false
  | some l => !l.isEmpty

/-- Python truthiness of the optional `memory_type` filter; an empty
string is falsy. -/
def mtTruthy : Option String → Bool
  | none => false
  | some s => s != ""

/-- `MEMORY_DEFAULT_DIMENSION` (env default 768). -/
def MEMORY_DEFAULT_DIMENSION : Nat := 768

/-- The dimensionality-correction block textually present in
`_upsert_to_pinecone` (memory_service.py:404-410): pad with zeros when
too short, truncate when too long, pass through otherwise.  At runtime
this block is unreachable — see `upsertToPineconeBody`: the read of
`vector` that guards it raises UnboundLocalError first. -/
def fixVector (dim : Nat) (vector : List ℚ) : List ℚ :=
  if vector.length ≠ dim then
    if vector.length < dim then vector ++ List.replicate (dim - vector.length) 0
    else vector.take dim
  else vector

/-- Exceptions of the modelled Python fragment. -/
inductive PyErr where
  | unboundLocal (name : String)
deriving DecidableEq, Repr, Inhabited

/-- A read of the closure-local name `vector` inside
`_upsert_to_pinecone`.  The closure assigns `vector` (memory_service.py
lines 408 and 410) without a `nonlocal` declaration, so Python scoping
makes `vector` a local of the closure — the parameter of the enclosing
`_store_in_pinecone` is shadowed, never consulted — and a read while the
local is unbound raises UnboundLocalError. -/
def readClosureLocal (local_vector : Option (List ℚ)) : Except PyErr (List ℚ) :=
  match local_vector with
  | none => Except.error (PyErr.unboundLocal "vector")
  | some v => Except.ok v

/-- The inner body of `_upsert_to_pinecone` (memory_service.py:401-444),
with the closure's local environment explicit.  Its first statement is
the dimension check `if len(vector) != MEMORY_DEFAULT_DIMENSION:` (line
404), a read of the closure-local `vector`; on a successful read the
pad/truncate block (`fixVector`) and the upsert would follow, producing
the (id, vector) pair sent to the index. -/
def upsertToPineconeBody (id : String) (local_vector : Option (List ℚ)) (dim : Nat) :
    Except PyErr (List (String × List ℚ)) := do
  let v ← readClosureLocal local_vector
  let v := fixVector dim v
  return [(id, v)]

/-- `_store_in_pinecone` as executed: run the closure body with the
local `vector` unbound (it is local because of the assignments at lines
408/410, and nothing has assigned it when line 404 reads it).  The
resulting UnboundLocalError is a NameError, so the
`except (TypeError, AttributeError)` handler at line 445 does not match
(and its older-syntax upsert reads the same unbound local anyway); the
blanket `except Exception` at line 451 logs and swallows it.  Returns
the vectors this call sends to the index — always none.  `vector_arg`
is the shadowed parameter of the enclosing function. -/
def storeInPinecone (id : String) (vector_arg : List ℚ) : List (String × List ℚ) :=
  match upsertToPineconeBody id none MEMORY_DEFAULT_DIMENSION with
  | Except.error _ => []
  | Except.ok sent => sent

/-- Python truthiness of the optional embedding
(`if self.pinecone_index and embedding:`); an empty vector is falsy. -/
def embTruthy : Option (List ℚ) → Bool
  | none => false
  | some v => !v.isEmpty

/-- `_store_in_memory`: `self.memory_cache[agent_id][memory_id] = memory`. -/
def storeInMemory (st : SState) (agent_id memory_id : String) (memory : Memory) : SState :=
  { st with memory_cache :=
      upsertA agent_id (upsertA memory_id memory (getAgentCache st agent_id)) st.memory_cache }

/-- `store_memory`.  Returns the memory id and the new service state.
The Redis success path writes the record, the recorded TTL (the explicit
`expiration` when truthy, else the importance-derived TTL), both
per-agent indices, attempts the Pinecone upsert (when an index is
configured and the embedding is truthy — an attempt that sends nothing,
see `storeInPinecone`), and mirrors the record into the in-memory cache.
On Redis failure or absence only the in-memory cache is written.  The
function is total: like the source, the call never raises. -/
def storeMemory (st : SState) (redisOk : Bool) (req : StoreReq) (emb : List ℚ) :
    String × SState :=
  let memory_id := req.id
  let embedding : Option (List ℚ) := if req.content.length > 0 then some emb else none
  let memory : Memory := mkMemory req emb
  match st.redis with
  | some r =>
    if redisOk then
      let key := (req.agent_id, memory_id)
      let ttlVal : Int :=
        if expTruthy req.exp then req.exp.getD 0 else derivedExpirySeconds req.importance
      let r' : RedisState :=
        { records := upsertA key memory r.records
          ttls := upsertA key ttlVal r.ttls
          recency := zadd r.recency req.agent_id memory_id req.ts
          importance_idx := zadd r.importance_idx req.agent_id memory_id req.importance }
      let st1 : SState := { st with redis := some r' }
      let st2 : SState :=
        { st1 with pinecone_upserted :=
            if st.pinecone && embTruthy embedding then
              st1.pinecone_upserted ++ storeInPinecone memory_id (embedding.getD [])
            else st1.pinecone_upserted }
      (memory_id, storeInMemory st2 req.agent_id memory_id memory)
    else
      (memory_id, storeInMemory st req.agent_id memory_id memory)
  | none => (memory_id, storeInMemory st req.agent_id memory_id memory)

/-- `get_memory`: Redis first (on a hit return it; on a miss or on a
Redis error fall through), then the in-memory cache, else `None`. -/
def getMemory (st : SState) (redisOk : Bool) (agent_id memory_id : String) : Option Memory :=
  let memFallback := lookupA memory_id (getAgentCache st agent_id)
  match st.redis with
  | some r =>
    if redisOk then
      match lookupA (agent_id, memory_id) r.records with
      | some m => some m
      | none => memFallback
    else memFallback
  | none => memFallback

/-- `_retrieve_from_memory`: all cached records of the agent, sorted by
`created_at` or `importance` descending (stable), first `limit` of them. -/
def retrieveFromMemory (st : SState) (agent_id : String) (sortBy : String) (limit : Nat) :
    List Memory :=
  let agent_memories := (getAgentCache st agent_id).map Prod.snd
  let sorted :=
    if sortBy = "timestamp" then
      List.insertionSort (fun x y : Memory => y.created_at ≤ x.created_at) agent_memories
    else if sortBy = "importance" then
      List.insertionSort (fun x y : Memory => y.importance ≤ x.importance) agent_memories
    else agent_memories
  sorted.take limit

/-- Does the record pass the `memory_type` filter of
`retrieve_recent_memories` (`if memory_type and memory.get("type") != memory_type`)? -/
def passesTypeFilter (memory_type : Option String) (m : Memory) : Bool :=
  !(mtTruthy memory_type && m.type != memory_type.getD "")

/-- Does the record pass the metadata filter
(`all(memory_metadata.get(k) == v for k, v in metadata_filter.items())`)? -/
def passesMetaFilter (metadata_filter : Option Meta) (m : Memory) : Bool :=
  !(metaTruthy metadata_filter &&
    !((metadata_filter.getD []).all fun kv => decide (lookupA kv.1 m.metadata = some kv.2)))

/-- The fetch loop of `retrieve_recent_memories`: for each id fetch the
record, skip ids whose record is gone, apply the two filters, and stop
as soon as `limit` records have been accumulated (the check runs after
each append, as in the source). -/
def fetchFiltered (getRec : String → Option Memory) (memory_type : Option String)
    (metadata_filter : Option Meta) (limit : Nat) :
    List String → List Memory → List Memory
  | [], acc => acc
  | i :: rest, acc =>
    match getRec i with
    | none => fetchFiltered getRec memory_type metadata_filter limit rest acc
    | some m =>
      if !passesTypeFilter memory_type m then
        fetchFiltered getRec memory_type metadata_filter limit rest acc
      else if !passesMetaFilter metadata_filter m then
        fetchFiltered getRec memory_type metadata_filter limit rest acc
      else
        let acc' := acc ++ [m]
        if limit ≤ acc'.length then acc'
        else fetchFiltered getRec memory_type metadata_filter limit rest acc'

/-- `retrieve_recent_memories`.  Redis path: `ZREVRANGE memory_index 0
(limit*2 - 1)` (all members when `limit = 0`, since the Python stop
index becomes `-1`), then the filtered fetch loop.  On Redis failure or
absence: `_retrieve_from_memory` sorted by timestamp — note the filters
are not passed along. -/
def retrieveRecentMemories (st : SState) (redisOk : Bool) (agent_id : String) (limit : Nat)
    (memory_type : Option String) (metadata_filter : Option Meta) : List Memory :=
  match st.redis with
  | some r =>
    if redisOk then
      let sorted := zscoreSortedDesc ((lookupA agent_id r.recency).getD [])
      let ranged := if limit = 0 then sorted else sorted.take (limit * 2)
      let memory_ids := ranged.map Prod.fst
      fetchFiltered (fun i => lookupA (agent_id, i) r.records) memory_type metadata_filter
        limit memory_ids []
    else retrieveFromMemory st agent_id "timestamp" limit
  | none => retrieveFromMemory st agent_id "timestamp" limit

/-- `retrieve_important_memories`: `ZREVRANGE memory_importance 0
(limit-1)` (all members when `limit = 0`), fetch each record, keep the
ones present.  Fallback: `_retrieve_from_memory` sorted by importance. -/
def retrieveImportantMemories (st : SState) (redisOk : Bool) (agent_id : String)
    (limit : Nat) : List Memory :=
  match st.redis with
  | some r =>
    if redisOk then
      let sorted := zscoreSortedDesc ((lookupA agent_id r.importance_idx).getD [])
      let ranged := if limit = 0 then sorted else sorted.take limit
      (ranged.map Prod.fst).filterMap (fun i => lookupA (agent_id, i) r.records)
    else retrieveFromMemory st agent_id "importance" limit
  | none => retrieveFromMemory st agent_id "importance" limit

/-- The relevance key of the keyword search: `(query in content.lower(),
importance)`, compared as a Python tuple. -/
def searchKey (query : String) (m : Memory) : Bool × ℚ :=
  (containsSub query (pyLower m.content), m.importance)

/-- Lexicographic `≤` on the Python tuple `(bool, float)` (with
`False < True`). -/
def searchKeyLe : Bool × ℚ → Bool × ℚ → Prop
  | (b1, q1), (b2, q2) => b1 = false ∧ b2 = true ∨ b1 = b2 ∧ q1 ≤ q2

instance : DecidableRel searchKeyLe := fun p q => by
  unfold searchKeyLe
  exact inferInstanceAs (Decidable _)

/-- `results.sort(key=..., reverse=True)` of the keyword search: stable
descending by `(contains_query, importance)`. -/
def searchRank (query : String) (results : List Memory) : List Memory :=
  List.insertionSort (fun x y : Memory => searchKeyLe (searchKey query y) (searchKey query x))
    results

/-- `_search_in_memory` (receives the already-lowercased query): filter
the agent's cached records by substring containment, rank, truncate. -/
def searchInMemory (st : SState) (agent_id query : String) (limit : Nat) : List Memory :=
  let agent_memories := (getAgentCache st agent_id).map Prod.snd
  let results := agent_memories.filter (fun m => containsSub query (pyLower m.content))
  (searchRank query results).take limit

/-- `_search_memories_with_keywords`.  Redis path: fetch every record of
the agent via `ZRANGE memory_index 0 -1`, filter by case-insensitive
substring containment, rank by `(contains_query, importance)`
descending, return the first `limit`.  On Redis failure or absence:
`_search_in_memory`. -/
def searchMemoriesWithKeywords (st : SState) (redisOk : Bool) (agent_id query : String)
    (limit : Nat) : List Memory :=
  let query_lower := pyLower query
  match st.redis with
  | some r =>
    if redisOk then
      let ids := (zscoreSortedAsc ((lookupA agent_id r.recency).getD [])).map Prod.fst
      let memories := ids.filterMap (fun i => lookupA (agent_id, i) r.records)
      let results := memories.filter (fun m => containsSub query_lower (pyLower m.content))
      (searchRank query_lower results).take limit
    else searchInMemory st agent_id query_lower limit
  | none => searchInMemory st agent_id query_lower limit

/-- `_delete_from_memory`: `False` when the agent bucket or the id is
absent, else remove the record and return `True`. -/
def deleteFromMemory (st : SState) (agent_id memory_id : String) : Bool × SState :=
  match lookupA agent_id st.memory_cache with
  | none => (false, st)
  | some am =>
    if (lookupA memory_id am).isSome then
      (true, { st with memory_cache := upsertA agent_id (removeA memory_id am) st.memory_cache })
    else (false, st)

/-- `delete_memory`.  Redis path: `DEL` the record key and `ZREM` both
indices (Redis deletes are count-returning, never not-found errors),
best-effort delete from Pinecone (failures swallowed; the upsert log is
kept as a log), drop any cached copy, and return `True` unconditionally.
Fallback path: `_delete_from_memory`. -/
def deleteMemory (st : SState) (redisOk : Bool) (agent_id memory_id : String) :
    Bool × SState :=
  match st.redis with
  | some r =>
    if redisOk then
      let r' : RedisState :=
        { records := removeA (agent_id, memory_id) r.records
          ttls := removeA (agent_id, memory_id) r.ttls
          recency := zrem r.recency agent_id memory_id
          importance_idx := zrem r.importance_idx agent_id memory_id }
      let st1 : SState := { st with redis := some r' }
      let st2 : SState :=
        match lookupA agent_id st1.memory_cache with
        | none => st1
        | some am =>
          if (lookupA memory_id am).isSome then
            { st1 with memory_cache := upsertA agent_id (removeA memory_id am) st1.memory_cache }
          else st1
      (true, st2)
    else deleteFromMemory st agent_id memory_id
  | none => deleteFromMemory st agent_id memory_id

/-- `{**old, **updates}`: shallow merge, updates win, new keys append. -/
def mergeMeta (old updates : Meta) : Meta :=
  updates.foldl (fun acc kv => upsertA kv.1 kv.2 acc) old

/-- `_update_importance_in_memory`: set only the importance on the
cached copy; `False` when the agent bucket or the id is absent.  (This
helper takes no metadata argument in the source.) -/
def updateImportanceInMemory (st : SState) (agent_id memory_id : String) (importance : ℚ) :
    Bool × SState :=
  match lookupA agent_id st.memory_cache with
  | none => (false, st)
  | some am =>
    match lookupA memory_id am with
    | none => (false, st)
    | some m =>
      let am' := upsertA memory_id { m with importance := importance } am
      (true, { st with memory_cache := upsertA agent_id am' st.memory_cache })

/-- `update_memory_importance`.  Redis path: read the record (missing →
`False`), set the importance, merge truthy `metadata_updates`, rewrite
the record and the importance index, best-effort mirror into Pinecone
metadata (no modelled state), and apply the same importance/metadata
update to any cached copy; returns `True`.  On Redis failure or absence:
`_update_importance_in_memory` — which receives only the importance. -/
def updateMemoryImportance (st : SState) (redisOk : Bool) (agent_id memory_id : String)
    (importance : ℚ) (metadata_updates : Option Meta) : Bool × SState :=
  match st.redis with
  | some r =>
    if redisOk then
      match lookupA (agent_id, memory_id) r.records with
      | none => (false, st)
      | some memory =>
        let m1 : Memory := { memory with importance := importance }
        let m2 : Memory :=
          if metaTruthy metadata_updates then
            { m1 with metadata := mergeMeta m1.metadata (metadata_updates.getD []) }
          else m1
        let r' : RedisState :=
          { r with
            records := upsertA (agent_id, memory_id) m2 r.records
            importance_idx := zadd r.importance_idx agent_id memory_id importance }
        let st1 : SState := { st with redis := some r' }
        let st2 : SState :=
          match lookupA agent_id st1.memory_cache with
          | none => st1
          | some am =>
            match lookupA memory_id am with
            | none => st1
            | some cm =>
              let cm1 : Memory := { cm with importance := importance }
              let cm2 : Memory :=
                if metaTruthy metadata_updates then
                  { cm1 with metadata := mergeMeta cm1.metadata (metadata_updates.getD []) }
                else cm1
              { st1 with memory_cache :=
                  upsertA agent_id (upsertA memory_id cm2 am) st1.memory_cache }
        (true, st2)
    else updateImportanceInMemory st agent_id memory_id importance
  | none => updateImportanceInMemory st agent_id memory_id importance

/-- `summarize_agent_memories`: the ten most important memories,
formatted as `Memory {i+1}: {content}` and joined with blank lines; a
fixed message when there are none.  The `max_tokens` argument is unused
by the source body. -/
def summarizeAgentMemories (st : SState) (redisOk : Bool) (agent_id : String)
    (max_tokens : Nat) : String :=
  let memories := retrieveImportantMemories st redisOk agent_id 10
  if memories.isEmpty then "No significant memories available for this agent."
  else
    String.intercalate "\n\n"
      (memories.enum.map fun p => "Memory " ++ toString (p.1 + 1) ++ ": " ++ p.2.content)

/-- A service whose Redis client is configured (and empty), with no
Pinecone index and an empty fallback cache: the start state used for the
store-then-retrieve claims. -/
def initState : SState := ⟨some emptyRedis, false, [], []⟩

/-- Repeated `store_memory` on the Redis success path (each call's
embedding argument is irrelevant to the claims and fixed to `[]`). -/
def storeMany (st : SState) (reqs : List StoreReq) : SState :=
  reqs.foldl (fun s r => (storeMemory s true r []).2) st

/-- Is there a cached copy of the record (agent bucket present and id
present in it)?  Mirrors the membership tests of `_delete_from_memory`. -/
def memHas (st : SState) (agent_id memory_id : String) : Bool :=
  ((lookupA agent_id st.memory_cache).bind fun am => lookupA memory_id am).isSome

/-- A concrete record used by the concrete-input theorems below. -/
def mRec (i : Nat) (c : String) (imp : ℚ) : Memory :=
  { id := "m" ++ toString i
    agent_id := "a"
    content := c
    type := "interaction"
    metadata := []
    importance := imp
    created_at := Int.ofNat i
    embedding := none
    user_id := none }

/-- A service state whose Redis tier is configured but empty while the
fallback cache holds one record: exercises the fallback paths. -/
def cacheOnlyState : SState :=
  ⟨some emptyRedis, false, [("a", [("m1", mRec 1 "hello" 0)])], []⟩

/-- A service state whose Redis tier holds one record (present in both
the record store and both indices). -/
def oneRecordState : SState :=
  ⟨some
      { records := [(("a", "m1"), mRec 1 "hello world" 1)]
        ttls := []
        recency := [("a", [("m1", 1)])]
        importance_idx := [("a", [("m1", 1)])] },
    false, [("a", [("m1", mRec 1 "hello world" 1)])], []⟩

/-- A concrete `store_memory` request used by the concrete-input
theorems below. -/
def sReq (i : Nat) (c : String) (imp : ℚ) (t : Int) : StoreReq :=
  { agent_id := "a"
    content := c
    mtype := "interaction"
    metadata := []
    importance := imp
    user_id := some "u"
    exp := none
    id := "m" ++ toString i
    ts := t }

/-! ## Helper lemmas about the dict model -/

theorem lookupA_upsertA_self {α β : Type} [DecidableEq α] (k : α) (v : β)
    (l : List (α × β)) : lookupA k (upsertA k v l) = some v := by
  induction l with
  | nil => simp [upsertA, lookupA]
  | cons p rest ih =>
    obtain ⟨k', v'⟩ := p
    by_cases h : k' = k
    · simp [upsertA, h, lookupA]
    · simp [upsertA, h, lookupA, ih]

theorem lookupA_upsertA_ne {α β : Type} [DecidableEq α] {j k : α} (h : j ≠ k) (v : β)
    (l : List (α × β)) : lookupA j (upsertA k v l) = lookupA j l := by
  induction l with
  | nil => simp [upsertA, lookupA, Ne.symm h]
  | cons p rest ih =>
    obtain ⟨k', v'⟩ := p
    by_cases hk : k' = k
    · subst hk; simp [upsertA, lookupA, Ne.symm h]
    · simp [upsertA, hk, lookupA, ih]

theorem upsertA_of_lookupA_none {α β : Type} [DecidableEq α] {k : α} (v : β)
    {l : List (α × β)} (h : lookupA k l = none) : upsertA k v l = l ++ [(k, v)] := by
  induction l with
  | nil => simp [upsertA]
  | cons p rest ih =>
    obtain ⟨k', v'⟩ := p
    by_cases hk : k' = k
    · simp [lookupA, hk] at h
    · simp [lookupA, hk] at h
      simp [upsertA, hk, ih h]

theorem lookupA_append_right {α β : Type} [DecidableEq α] {k : α} {l1 : List (α × β)}
    (l2 : List (α × β)) (h : lookupA k l1 = none) :
    lookupA k (l1 ++ l2) = lookupA k l2 := by
  induction l1 with
  | nil => simp
  | cons p rest ih =>
    obtain ⟨k', v'⟩ := p
    by_cases hk : k' = k
    · simp [lookupA, hk] at h
    · simp [lookupA, hk] at h ⊢
      exact ih h

theorem lookupA_singleton_ne {α β : Type} [DecidableEq α] {j k : α} (h : j ≠ k) (v : β) :
    lookupA j [(k, v)] = none := by
  simp [lookupA, Ne.symm h]

theorem lookupA_of_mem_pairwise {α β : Type} [DecidableEq α] {k : α} {v : β}
    {l : List (α × β)} (hp : l.Pairwise (fun p q => p.1 ≠ q.1)) (hm : (k, v) ∈ l) :
    lookupA k l = some v := by
  induction l with
  | nil => simp at hm
  | cons p rest ih =>
    obtain ⟨k', v'⟩ := p
    rcases List.mem_cons.mp hm with h | h
    · cases h
      simp [lookupA]
    · have hne : k' ≠ k := by
        have := (List.pairwise_cons.mp hp).1 (k, v) h
        simpa using this
      simp [lookupA, hne]
      exact ih (List.pairwise_cons.mp hp).2 h

theorem lookupA_eq_none_of_not_mem_keys {α β : Type} [DecidableEq α] {k : α}
    {l : List (α × β)} (h : k ∉ l.map Prod.fst) : lookupA k l = none := by
  induction l with
  | nil => rfl
  | cons p rest ih =>
    obtain ⟨k', v'⟩ := p
    simp only [List.map_cons, List.mem_cons, not_or] at h
    simp [lookupA, Ne.symm h.1, ih h.2]

theorem filterMap_eq_map_of_all_some {α β : Type} (f : α → Option β) (g : α → β) :
    ∀ l : List α, (∀ x ∈ l, f x = some (g x)) → l.filterMap f = l.map g := by
  intro l
  induction l with
  | nil => intro _; rfl
  | cons x rest ih =>
    intro h
    rw [List.filterMap_cons, h x (List.mem_cons_self x rest), List.map_cons,
      ih fun y hy => h y (List.mem_cons_of_mem x hy)]

theorem getAgentCache_storeInMemory (st : SState) (a i : String) (m : Memory) :
    getAgentCache (storeInMemory st a i m) a = upsertA i m (getAgentCache st a) := by
  simp [getAgentCache, storeInMemory, lookupA_upsertA_self]

theorem storeInMemory_redis (st : SState) (a i : String) (m : Memory) :
    (storeInMemory st a i m).redis = st.redis := rfl

theorem deleteFromMemory_fst (st : SState) (a i : String) :
    (deleteFromMemory st a i).1 = memHas st a i := by
  unfold deleteFromMemory memHas
  cases h : lookupA a st.memory_cache with
  | none => rfl
  | some am => by_cases hi : (lookupA i am).isSome <;> simp [hi]

/-- Length is always the configured dimension after the correction. -/
theorem fixVector_length (dim : Nat) (v : List ℚ) : (fixVector dim v).length = dim := by
  unfold fixVector
  by_cases h : v.length = dim
  · simp [h]
  · simp [h]
    by_cases hlt : v.length < dim
    · simp [hlt]
      omega
    · simp [hlt]
      omega

/-! ## Characterization of a single `store_memory` call -/

theorem storeInMemory_pinecone_upserted (st : SState) (a i : String) (m : Memory) :
    (storeInMemory st a i m).pinecone_upserted = st.pinecone_upserted := rfl

theorem storeMemory_fst (st : SState) (okS : Bool) (req : StoreReq) (emb : List ℚ) :
    (storeMemory st okS req emb).1 = req.id := by
  cases h : st.redis with
  | none => simp [storeMemory, h]
  | some rd => cases okS <;> simp [storeMemory, h]

theorem storeMemory_false_state (st : SState) (rd : RedisState) (req : StoreReq)
    (emb : List ℚ) (h : st.redis = some rd) :
    (storeMemory st false req emb).2
      = storeInMemory st req.agent_id req.id (mkMemory req emb) := by
  simp [storeMemory, h]

theorem storeMemory_none_state (st : SState) (okS : Bool) (req : StoreReq)
    (emb : List ℚ) (h : st.redis = none) :
    (storeMemory st okS req emb).2
      = storeInMemory st req.agent_id req.id (mkMemory req emb) := by
  simp [storeMemory, h]

/-- On the Redis success path the two `expire` calls collapse into the
single recorded TTL: the explicit expiration when truthy, else the
importance-derived TTL. -/
theorem storeMemory_true_redis (st : SState) (rd : RedisState) (req : StoreReq)
    (emb : List ℚ) (h : st.redis = some rd) :
    (storeMemory st true req emb).2.redis = some
      { records := upsertA (req.agent_id, req.id) (mkMemory req emb) rd.records
        ttls := upsertA (req.agent_id, req.id)
          (if expTruthy req.exp then req.exp.getD 0 else derivedExpirySeconds req.importance)
          rd.ttls
        recency := zadd rd.recency req.agent_id req.id req.ts
        importance_idx := zadd rd.importance_idx req.agent_id req.id req.importance } := by
  obtain ⟨ored, pc, mc, pu⟩ := st
  have h2 : ored = some rd := h
  subst h2
  rfl

theorem storeMemory_true_cache (st : SState) (rd : RedisState) (req : StoreReq)
    (emb : List ℚ) (h : st.redis = some rd) :
    getAgentCache (storeMemory st true req emb).2 req.agent_id
      = upsertA req.id (mkMemory req emb) (getAgentCache st req.agent_id) := by
  obtain ⟨ored, pc, mc, pu⟩ := st
  have h2 : ored = some rd := h
  subst h2
  simp [storeMemory, storeInMemory, getAgentCache, lookupA_upsertA_self]

theorem storeMemory_true_pinecone (st : SState) (rd : RedisState) (req : StoreReq)
    (emb : List ℚ) (h : st.redis = some rd) :
    (storeMemory st true req emb).2.pinecone = st.pinecone := by
  obtain ⟨ored, pc, mc, pu⟩ := st
  have h2 : ored = some rd := h
  subst h2
  rfl

/-- `_upsert_to_pinecone` never completes: its first read of the
closure-local `vector` errors. -/
theorem upsertToPineconeBody_error (id : String) (dim : Nat) :
    upsertToPineconeBody id none dim = Except.error (PyErr.unboundLocal "vector") := rfl

/-- Consequently `_store_in_pinecone` sends nothing, for every vector
argument. -/
theorem storeInPinecone_empty (id : String) (v : List ℚ) :
    storeInPinecone id v = [] := rfl

/-- The Pinecone upsert log after a successful store: unchanged — the
attempted upsert contributes nothing. -/
theorem storeMemory_true_upserted (st : SState) (rd : RedisState) (req : StoreReq)
    (emb : List ℚ) (h : st.redis = some rd) :
    (storeMemory st true req emb).2.pinecone_upserted = st.pinecone_upserted := by
  obtain ⟨ored, pc, mc, pu⟩ := st
  have h2 : ored = some rd := h
  subst h2
  show (if pc && embTruthy (if req.content.length > 0 then some emb else none) then
      pu ++ storeInPinecone req.id
        ((if req.content.length > 0 then some emb else none).getD [])
    else pu) = pu
  simp [storeInPinecone_empty]

/-! ## C1: store / get round trip -/

/-- C1: for every service state, every Redis configuration and every
success/failure combination of the store and the get call, storing a
record with a fresh id via `store_memory` and reading it back with
`get_memory` (same agent, returned id) yields exactly the stored record;
in particular its `content`, `type`, `importance`, `user_id` and
`agent_id` equal the values given at store time. -/
theorem store_get_round_trip (st : SState) (okS okG : Bool) (req : StoreReq)
    (emb : List ℚ)
    (hfresh : ∀ rd, st.redis = some rd → lookupA (req.agent_id, req.id) rd.records = none) :
    (storeMemory st okS req emb).1 = req.id
    ∧ getMemory (storeMemory st okS req emb).2 okG req.agent_id req.id
        = some (mkMemory req emb)
    ∧ (mkMemory req emb).content = req.content
    ∧ (mkMemory req emb).type = req.mtype
    ∧ (mkMemory req emb).importance = req.importance
    ∧ (mkMemory req emb).user_id = req.user_id
    ∧ (mkMemory req emb).agent_id = req.agent_id := by
  refine ⟨storeMemory_fst st okS req emb, ?_, rfl, rfl, rfl, rfl, rfl⟩
  cases h : st.redis with
  | none =>
    rw [storeMemory_none_state st okS req emb h]
    simp [getMemory, storeInMemory_redis, h, getAgentCache_storeInMemory,
      lookupA_upsertA_self]
  | some rd =>
    cases okS with
    | false =>
      rw [storeMemory_false_state st rd req emb h]
      have hf := hfresh rd h
      cases okG <;>
        simp [getMemory, storeInMemory_redis, h, hf, getAgentCache_storeInMemory,
          lookupA_upsertA_self]
    | true =>
      have hredis := storeMemory_true_redis st rd req emb h
      have hcache := storeMemory_true_cache st rd req emb h
      cases okG <;>
        simp [getMemory, hredis, hcache, lookupA_upsertA_self]

/-- Witness for C1 at a concrete input. -/
theorem store_get_round_trip_witness :
    (storeMemory initState true (sReq 1 "hello" 1 5) []).1 = (sReq 1 "hello" 1 5).id
    ∧ getMemory (storeMemory initState true (sReq 1 "hello" 1 5) []).2 true
        (sReq 1 "hello" 1 5).agent_id (sReq 1 "hello" 1 5).id
        = some (mkMemory (sReq 1 "hello" 1 5) [])
    ∧ (mkMemory (sReq 1 "hello" 1 5) []).content = (sReq 1 "hello" 1 5).content
    ∧ (mkMemory (sReq 1 "hello" 1 5) []).type = (sReq 1 "hello" 1 5).mtype
    ∧ (mkMemory (sReq 1 "hello" 1 5) []).importance = (sReq 1 "hello" 1 5).importance
    ∧ (mkMemory (sReq 1 "hello" 1 5) []).user_id = (sReq 1 "hello" 1 5).user_id
    ∧ (mkMemory (sReq 1 "hello" 1 5) []).agent_id = (sReq 1 "hello" 1 5).agent_id :=
  store_get_round_trip initState true true (sReq 1 "hello" 1 5) []
    (fun rd h => by
      have h2 : emptyRedis = rd := by injection h
      subst h2
      rfl)

/-! ## C2: store never fails and always returns the id -/

/-- C2: `store_memory` returns the generated id in every tier
configuration (the model is a total function, mirroring that the source
catches every exception); when the primary store is configured but the
call fails, the Redis state and the Pinecone upsert log are untouched
and the record lands in the fallback cache only; the same holds when no
primary store is configured. -/
theorem store_always_returns_id (st : SState) (redisOk : Bool) (req : StoreReq)
    (emb : List ℚ) :
    (storeMemory st redisOk req emb).1 = req.id
    ∧ (∀ rd, st.redis = some rd → redisOk = false →
        (storeMemory st redisOk req emb).2.redis = some rd
        ∧ (storeMemory st redisOk req emb).2.pinecone_upserted = st.pinecone_upserted
        ∧ lookupA req.id (getAgentCache (storeMemory st redisOk req emb).2 req.agent_id)
            = some (mkMemory req emb))
    ∧ (st.redis = none →
        (storeMemory st redisOk req emb).2.redis = none
        ∧ (storeMemory st redisOk req emb).2.pinecone_upserted = st.pinecone_upserted
        ∧ lookupA req.id (getAgentCache (storeMemory st redisOk req emb).2 req.agent_id)
            = some (mkMemory req emb)) := by
  refine ⟨storeMemory_fst st redisOk req emb, ?_, ?_⟩
  · rintro rd h rfl
    rw [storeMemory_false_state st rd req emb h]
    exact ⟨by rw [storeInMemory_redis, h], rfl,
      by rw [getAgentCache_storeInMemory, lookupA_upsertA_self]⟩
  · intro h
    rw [storeMemory_none_state st redisOk req emb h]
    exact ⟨by rw [storeInMemory_redis, h], rfl,
      by rw [getAgentCache_storeInMemory, lookupA_upsertA_self]⟩

/-- Witness for C2 at a concrete input (Redis configured but failing). -/
theorem store_always_returns_id_witness :
    (storeMemory cacheOnlyState false (sReq 3 "w" 0 9) []).1 = (sReq 3 "w" 0 9).id
    ∧ (storeMemory cacheOnlyState false (sReq 3 "w" 0 9) []).2.redis = some emptyRedis
    ∧ lookupA (sReq 3 "w" 0 9).id
        (getAgentCache (storeMemory cacheOnlyState false (sReq 3 "w" 0 9) []).2
          (sReq 3 "w" 0 9).agent_id) = some (mkMemory (sReq 3 "w" 0 9) []) :=
  ⟨(store_always_returns_id cacheOnlyState false (sReq 3 "w" 0 9) []).1,
   ((store_always_returns_id cacheOnlyState false (sReq 3 "w" 0 9) []).2.1
      emptyRedis rfl rfl).1,
   ((store_always_returns_id cacheOnlyState false (sReq 3 "w" 0 9) []).2.1
      emptyRedis rfl rfl).2.2⟩

/-! ## C3: TTL derivation -/

/-- C3: with no explicit expiration, the Redis success path of
`store_memory` records the derived TTL; that TTL equals
`⌊1 + 89·importance⌋` days in seconds for `importance ∈ [0,1]`,
yielding 1 day at importance 0, 90 days at importance 1, and is
monotone in the importance. -/
theorem ttl_derivation (st : SState) (rd : RedisState) (req : StoreReq) (emb : List ℚ)
    (imp2 : ℚ) (hrd : st.redis = some rd) (hexp : req.exp = none)
    (h0 : 0 ≤ req.importance) (h1 : req.importance ≤ 1) :
    (∃ rd', (storeMemory st true req emb).2.redis = some rd'
        ∧ lookupA (req.agent_id, req.id) rd'.ttls
            = some (derivedExpirySeconds req.importance))
    ∧ derivedExpirySeconds req.importance = ⌊1 + 89 * req.importance⌋ * 86400
    ∧ derivedExpirySeconds 0 = 86400
    ∧ derivedExpirySeconds 1 = 7776000
    ∧ (req.importance ≤ imp2 →
        derivedExpirySeconds req.importance ≤ derivedExpirySeconds imp2) := by
  refine ⟨?_, ?_, by norm_num [derivedExpirySeconds, days_to_keep, pyTrunc],
    by norm_num [derivedExpirySeconds, days_to_keep, pyTrunc], ?_⟩
  · refine ⟨_, storeMemory_true_redis st rd req emb hrd, ?_⟩
    simp [hexp, expTruthy, lookupA_upsertA_self]
  · have hnn : (0:ℚ) ≤ 1 + (90 - 1) * req.importance := by nlinarith
    unfold derivedExpirySeconds days_to_keep pyTrunc
    rw [if_pos hnn, show ((90:ℚ) - 1) = 89 by norm_num]
    ring
  · intro hle
    have h2 : (0:ℚ) ≤ imp2 := le_trans h0 hle
    unfold derivedExpirySeconds days_to_keep pyTrunc
    rw [if_pos (by nlinarith), if_pos (by nlinarith)]
    have hfl : ⌊(1:ℚ) + (90 - 1) * req.importance⌋ ≤ ⌊(1:ℚ) + (90 - 1) * imp2⌋ :=
      Int.floor_le_floor (by nlinarith)
    linarith

/-- Witness for C3 at a concrete input (importance one half: 45 days). -/
theorem ttl_derivation_witness :
    (∃ rd', (storeMemory initState true (sReq 2 "x" (1/2) 7) []).2.redis = some rd'
        ∧ lookupA ((sReq 2 "x" (1/2) 7).agent_id, (sReq 2 "x" (1/2) 7).id) rd'.ttls
            = some (derivedExpirySeconds (sReq 2 "x" (1/2) 7).importance))
    ∧ derivedExpirySeconds (sReq 2 "x" (1/2) 7).importance
        = ⌊1 + 89 * (sReq 2 "x" (1/2) 7).importance⌋ * 86400
    ∧ derivedExpirySeconds 0 = 86400
    ∧ derivedExpirySeconds 1 = 7776000
    ∧ ((sReq 2 "x" (1/2) 7).importance ≤ 3/4 →
        derivedExpirySeconds (sReq 2 "x" (1/2) 7).importance
          ≤ derivedExpirySeconds (3/4)) :=
  ttl_derivation initState emptyRedis (sReq 2 "x" (1/2) 7) [] (3/4) rfl rfl
    (by norm_num [sReq]) (by norm_num [sReq])

/-! ## C6: update_memory_importance fallback path -/

/-- C6 counterexample: with the primary store failing,
`update_memory_importance` does **not** merge `metadata_updates` into
the fallback-cache copy.  At this concrete input the cached record's
metadata stays `[]` although the merge the claim promises would yield
`[("k", "v")]`. -/
theorem update_fallback_merge_cex :
    (lookupA "m1" (getAgentCache
        (updateMemoryImportance cacheOnlyState false "a" "m1" 1
          (some [("k", MVal.s "v")])).2 "a")).map Memory.metadata = some []
    ∧ mergeMeta (mRec 1 "hello" 0).metadata [("k", MVal.s "v")] = [("k", MVal.s "v")]
    ∧ some ([] : Meta) ≠ some [("k", MVal.s "v")] := by decide

/-- C6 (amended): when the primary store fails during
`update_memory_importance` on a record present in the fallback cache,
only the importance is updated on the cached copy (the metadata is left
as it was — `metadata_updates` is dropped by the fallback path), the
call still returns `True`, and the Redis state is untouched. -/
theorem update_fallback_importance_only (st : SState) (rd : RedisState) (a i : String)
    (imp : ℚ) (mupd : Option Meta) (am : List (String × Memory)) (m : Memory)
    (hrd : st.redis = some rd) (ham : lookupA a st.memory_cache = some am)
    (hm : lookupA i am = some m) :
    (updateMemoryImportance st false a i imp mupd).1 = true
    ∧ (updateMemoryImportance st false a i imp mupd).2.redis = st.redis
    ∧ lookupA i (getAgentCache (updateMemoryImportance st false a i imp mupd).2 a)
        = some { m with importance := imp } := by
  have hstep : updateMemoryImportance st false a i imp mupd
      = updateImportanceInMemory st a i imp := by
    obtain ⟨ored, pc, mc, pu⟩ := st
    have h2 : ored = some rd := hrd
    subst h2
    rfl
  rw [hstep]
  simp only [updateImportanceInMemory, ham, hm]
  refine ⟨trivial, trivial, ?_⟩
  simp [getAgentCache, lookupA_upsertA_self]

/-- Witness for the amended C6 at a concrete input. -/
theorem update_fallback_importance_only_witness :
    (updateMemoryImportance cacheOnlyState false "a" "m1" 1 (some [("k", MVal.s "v")])).1
      = true
    ∧ (updateMemoryImportance cacheOnlyState false "a" "m1" 1
        (some [("k", MVal.s "v")])).2.redis = cacheOnlyState.redis
    ∧ lookupA "m1" (getAgentCache
        (updateMemoryImportance cacheOnlyState false "a" "m1" 1
          (some [("k", MVal.s "v")])).2 "a")
        = some { mRec 1 "hello" 0 with importance := 1 } :=
  update_fallback_importance_only cacheOnlyState emptyRedis "a" "m1" 1
    (some [("k", MVal.s "v")]) [("m1", mRec 1 "hello" 0)] (mRec 1 "hello" 0)
    rfl (by decide) (by decide)

/-! ## C7: summarize_agent_memories ignores max_tokens -/

/-- C7 (code bug): the `max_tokens` argument of
`summarize_agent_memories` does not bound the output.  For an agent with
one important memory of content `"hello world"` and `max_tokens = 1`,
the summary is the full 21-character string `"Memory 1: hello world"`,
exceeding the requested bound — the source body never reads
`max_tokens`, contradicting its own docstring. -/
theorem summarize_ignores_max_tokens :
    retrieveImportantMemories oneRecordState true "a" 10 ≠ []
    ∧ summarizeAgentMemories oneRecordState true "a" 1 = "Memory 1: hello world"
    ∧ 1 < (summarizeAgentMemories oneRecordState true "a" 1).length := by decide

/-! ## C8: vector dimensionality correction is dead code -/

/-- C8 (code bug): the dimensionality correction never runs.
`_upsert_to_pinecone` assigns its name `vector` (memory_service.py:408
and 410) without `nonlocal`, making `vector` a local of the closure, so
the dimension check at line 404 reads an unbound local and raises
UnboundLocalError on every call; being a NameError it is not caught by
`except (TypeError, AttributeError)` and is swallowed by the blanket
`except Exception` at line 451.  Hence — against the claim — no vector
is ever corrected or sent to the index: the body errors at the failing
input, `_store_in_pinecone` sends nothing for the mismatched vector
`[7]`, and every `store_memory` call leaves the upsert log unchanged.
The pad/truncate block the claim describes is textually present
(embedded as `fixVector`, which would indeed produce exactly the
configured dimension) but unreachable. -/
theorem vector_correction_unreachable :
    upsertToPineconeBody "m1" none MEMORY_DEFAULT_DIMENSION
        = Except.error (PyErr.unboundLocal "vector")
    ∧ storeInPinecone "m1" [(7 : ℚ)] = []
    ∧ (∀ (st : SState) (redisOk : Bool) (req : StoreReq) (emb : List ℚ),
        (storeMemory st redisOk req emb).2.pinecone_upserted = st.pinecone_upserted)
    ∧ (fixVector MEMORY_DEFAULT_DIMENSION [(7 : ℚ)]).length = MEMORY_DEFAULT_DIMENSION := by
  refine ⟨rfl, rfl, ?_, fixVector_length _ _⟩
  intro st redisOk req emb
  cases h : st.redis with
  | none =>
    rw [storeMemory_none_state st redisOk req emb h]
    rfl
  | some rd =>
    cases redisOk with
    | false =>
      rw [storeMemory_false_state st rd req emb h]
      rfl
    | true => exact storeMemory_true_upserted st rd req emb h

/-! ## C9: the fallback path of retrieve_recent_memories ignores filters -/

/-- C9: when the Redis call fails, `retrieve_recent_memories` falls back
to `_retrieve_from_memory`, which receives neither `memory_type` nor
`metadata_filter` — the result is the unfiltered newest records, and at
the concrete input below a type filter for `"system"` returns an
`"interaction"` record that does not satisfy it. -/
theorem fallback_ignores_filters :
    (∀ (st : SState) (a : String) (limit : Nat) (mt : Option String) (mf : Option Meta),
      retrieveRecentMemories st false a limit mt mf
        = retrieveFromMemory st a "timestamp" limit)
    ∧ retrieveRecentMemories cacheOnlyState false "a" 1 (some "system") none
        = [mRec 1 "hello" 0]
    ∧ (mRec 1 "hello" 0).type ≠ "system" := by
  refine ⟨?_, by decide, by decide⟩
  intro st a limit mt mf
  cases h : st.redis with
  | none => simp [retrieveRecentMemories, h]
  | some rd => simp [retrieveRecentMemories, h]

/-! ## C10: delete_memory not-found reporting is tier dependent -/

/-- C10: with a configured, non-failing primary store, `delete_memory`
returns `True` unconditionally — even for an id that was never stored;
only the fallback-cache path (Redis failing, or no Redis client) reports
`False` for an absent id, via the presence test of
`_delete_from_memory`. -/
theorem delete_not_found_tier_dependent (st : SState) (rd : RedisState) (a i : String) :
    (st.redis = some rd → (deleteMemory st true a i).1 = true)
    ∧ (deleteMemory st false a i).1 = memHas st a i
    ∧ (st.redis = none → ∀ ok, (deleteMemory st ok a i).1 = memHas st a i) := by
  refine ⟨?_, ?_, ?_⟩
  · intro h
    obtain ⟨ored, pc, mc, pu⟩ := st
    have h2 : ored = some rd := h
    subst h2
    simp [deleteMemory]
  · cases h : st.redis with
    | none => simp [deleteMemory, h, deleteFromMemory_fst]
    | some rd2 => simp [deleteMemory, h, deleteFromMemory_fst]
  · intro h ok
    cases ok <;> simp [deleteMemory, h, deleteFromMemory_fst]

/-- Witness for C10 at a concrete input: deleting a never-stored id
reports `True` on the Redis path and `False` on the fallback path. -/
theorem delete_not_found_tier_dependent_witness :
    (deleteMemory cacheOnlyState true "a" "ghost").1 = true
    ∧ (deleteMemory cacheOnlyState false "a" "ghost").1 = memHas cacheOnlyState "a" "ghost"
    ∧ memHas cacheOnlyState "a" "ghost" = false :=
  ⟨(delete_not_found_tier_dependent cacheOnlyState emptyRedis "a" "ghost").1 rfl,
   (delete_not_found_tier_dependent cacheOnlyState emptyRedis "a" "ghost").2.1,
   by decide⟩

/-! ## Sorting helpers -/

theorem zscoreSortedDesc_perm {β : Type} [LinearOrder β] (z : List (String × β)) :
    (zscoreSortedDesc z).Perm z := List.perm_insertionSort _ z

theorem zscoreSortedDesc_sorted {β : Type} [LinearOrder β] (z : List (String × β)) :
    (zscoreSortedDesc z).Pairwise (fun p q => q.2 ≤ p.2) := by
  haveI : IsTotal (String × β) (fun p q => q.2 ≤ p.2) := ⟨fun p q => le_total q.2 p.2⟩
  haveI : IsTrans (String × β) (fun p q => q.2 ≤ p.2) :=
    ⟨fun p q rr h1 h2 => le_trans h2 h1⟩
  exact List.sorted_insertionSort _ z

theorem zscoreSortedAsc_perm {β : Type} [LinearOrder β] (z : List (String × β)) :
    (zscoreSortedAsc z).Perm z := List.perm_insertionSort _ z

/-- A list pairwise sorted descending under a key, with pairwise distinct
keys, is strictly descending. -/
theorem pairwise_strict_of_le_ne {α β : Type} [LinearOrder β] {l : List α} {f : α → β}
    (hle : l.Pairwise (fun p q => f q ≤ f p)) (hne : l.Pairwise (fun p q => f p ≠ f q)) :
    l.Pairwise (fun p q => f q < f p) :=
  (hle.and hne).imp (fun h => lt_of_le_of_ne h.1 (Ne.symm h.2))

/-! ## The fetch loop with no filters -/

/-- With no filters active and every id resolving to a record, the fetch
loop of `retrieve_recent_memories` returns the records of the ids in
order, provided they fit into the limit. -/
theorem fetchFiltered_all_found (getRec : String → Option Memory) (g : String → Memory)
    (limit : Nat) :
    ∀ (ids : List String) (acc : List Memory),
      (∀ i ∈ ids, getRec i = some (g i)) → acc.length + ids.length ≤ limit →
      fetchFiltered getRec none none limit ids acc = acc ++ ids.map g := by
  intro ids
  induction ids with
  | nil => intro acc _ _; simp [fetchFiltered]
  | cons i rest ih =>
    intro acc hall hlen
    have hi : getRec i = some (g i) := hall i (List.mem_cons_self i rest)
    have hrest : ∀ j ∈ rest, getRec j = some (g j) :=
      fun j hj => hall j (List.mem_cons_of_mem i hj)
    have hpt : passesTypeFilter none (g i) = true := by
      simp [passesTypeFilter, mtTruthy]
    have hpm : passesMetaFilter none (g i) = true := by
      simp [passesMetaFilter, metaTruthy]
    rw [fetchFiltered]
    simp only [hi, hpt, hpm, Bool.not_true, Bool.false_eq_true, if_false]
    have hlen' : acc.length + (rest.length + 1) ≤ limit := by
      simpa [List.length_cons] using hlen
    by_cases hb : limit ≤ (acc ++ [g i]).length
    · have hrest0 : rest = [] := by
        rcases rest with _ | ⟨j, rest2⟩
        · rfl
        · exfalso
          simp [List.length_append] at hb
          simp [List.length_cons] at hlen'
          omega
      subst hrest0
      rw [if_pos hb]
      simp
    · rw [if_neg hb]
      rw [ih (acc ++ [g i]) hrest (by simp [List.length_append] at hb ⊢; omega)]
      simp

/-! ## The state after a batch of stores from the initial state -/

/-- The inductive step view of `storeMany` on the Redis success path:
all four data structures grow by exactly the batch, in order, provided
the ids are fresh and pairwise distinct. -/
theorem storeMany_state (a : String) :
    ∀ (reqs : List StoreReq) (st : SState) (rd : RedisState),
      st.redis = some rd →
      (∀ r ∈ reqs, r.agent_id = a) →
      reqs.Pairwise (fun r s => r.id ≠ s.id) →
      (∀ r ∈ reqs, lookupA (a, r.id) rd.records = none) →
      (∀ r ∈ reqs, lookupA r.id ((lookupA a rd.recency).getD []) = none) →
      (∀ r ∈ reqs, lookupA r.id ((lookupA a rd.importance_idx).getD []) = none) →
      (∀ r ∈ reqs, lookupA r.id (getAgentCache st a) = none) →
      ∃ rd' : RedisState,
        (storeMany st reqs).redis = some rd'
        ∧ rd'.records = rd.records ++ reqs.map (fun r => ((a, r.id), mkMemory r []))
        ∧ (lookupA a rd'.recency).getD []
            = (lookupA a rd.recency).getD [] ++ reqs.map (fun r => (r.id, r.ts))
        ∧ (lookupA a rd'.importance_idx).getD []
            = (lookupA a rd.importance_idx).getD []
              ++ reqs.map (fun r => (r.id, r.importance))
        ∧ getAgentCache (storeMany st reqs) a
            = getAgentCache st a ++ reqs.map (fun r => (r.id, mkMemory r [])) := by
  intro reqs
  induction reqs with
  | nil =>
    intro st rd hrd _ _ _ _ _ _
    exact ⟨rd, hrd, by simp, by simp, by simp, by simp [storeMany]⟩
  | cons r rest ih =>
    intro st rd hrd hA hp hfrec hfz hfzi hfc
    have hra : r.agent_id = a := hA r (List.mem_cons_self r rest)
    have hpr := List.pairwise_cons.mp hp
    have hmany : storeMany st (r :: rest) = storeMany (storeMemory st true r []).2 rest := by
      simp [storeMany]
    -- the state after the head store
    have hredis1 := storeMemory_true_redis st rd r [] hrd
    rw [hra] at hredis1
    have hcache1 := storeMemory_true_cache st rd r [] hrd
    rw [hra] at hcache1
    -- the four structures after the head store, in append form
    have hrecords1 : upsertA (a, r.id) (mkMemory r []) rd.records
        = rd.records ++ [((a, r.id), mkMemory r [])] :=
      upsertA_of_lookupA_none _ (hfrec r (List.mem_cons_self r rest))
    have hz1 : (lookupA a (zadd rd.recency a r.id r.ts)).getD []
        = (lookupA a rd.recency).getD [] ++ [(r.id, r.ts)] := by
      unfold zadd
      rw [lookupA_upsertA_self, Option.getD_some,
        upsertA_of_lookupA_none _ (hfz r (List.mem_cons_self r rest))]
    have hzi1 : (lookupA a (zadd rd.importance_idx a r.id r.importance)).getD []
        = (lookupA a rd.importance_idx).getD [] ++ [(r.id, r.importance)] := by
      unfold zadd
      rw [lookupA_upsertA_self, Option.getD_some,
        upsertA_of_lookupA_none _ (hfzi r (List.mem_cons_self r rest))]
    have hc1 : getAgentCache (storeMemory st true r []).2 a
        = getAgentCache st a ++ [(r.id, mkMemory r [])] := by
      rw [hcache1]
      exact upsertA_of_lookupA_none _ (hfc r (List.mem_cons_self r rest))
    -- freshness of the tail relative to the post-head state
    have hne : ∀ s ∈ rest, s.id ≠ r.id := fun s hs => Ne.symm (hpr.1 s hs)
    obtain ⟨rd', h1, h2, h3, h4, h5⟩ := ih (storeMemory st true r []).2 _ hredis1
      (fun s hs => hA s (List.mem_cons_of_mem r hs)) hpr.2
      (fun s hs => by
        show lookupA (a, s.id) (upsertA (a, r.id) (mkMemory r []) rd.records) = none
        rw [hrecords1, lookupA_append_right _ (hfrec s (List.mem_cons_of_mem r hs))]
        exact lookupA_singleton_ne (by simp [hne s hs]) _)
      (fun s hs => by
        show lookupA s.id ((lookupA a (zadd rd.recency a r.id r.ts)).getD []) = none
        rw [hz1, lookupA_append_right _ (hfz s (List.mem_cons_of_mem r hs))]
        exact lookupA_singleton_ne (hne s hs) _)
      (fun s hs => by
        show lookupA s.id
            ((lookupA a (zadd rd.importance_idx a r.id r.importance)).getD []) = none
        rw [hzi1, lookupA_append_right _ (hfzi s (List.mem_cons_of_mem r hs))]
        exact lookupA_singleton_ne (hne s hs) _)
      (fun s hs => by
        rw [hc1, lookupA_append_right _ (hfc s (List.mem_cons_of_mem r hs))]
        exact lookupA_singleton_ne (hne s hs) _)
    refine ⟨rd', by rw [hmany]; exact h1, ?_, ?_, ?_, ?_⟩
    · rw [h2]
      simp [hrecords1]
    · rw [h3]
      simp [hz1]
    · rw [h4]
      simp [hzi1]
    · rw [hmany, h5, hc1]
      simp

/-- After a batch of stores for one agent from the fresh initial state,
both tiers hold exactly the batch, in insertion order. -/
theorem storeMany_init (a : String) (reqs : List StoreReq)
    (hA : ∀ r ∈ reqs, r.agent_id = a)
    (hid : reqs.Pairwise (fun r s => r.id ≠ s.id)) :
    ∃ rd' : RedisState,
      (storeMany initState reqs).redis = some rd'
      ∧ rd'.records = reqs.map (fun r => ((a, r.id), mkMemory r []))
      ∧ (lookupA a rd'.recency).getD [] = reqs.map (fun r => (r.id, r.ts))
      ∧ (lookupA a rd'.importance_idx).getD []
          = reqs.map (fun r => (r.id, r.importance))
      ∧ getAgentCache (storeMany initState reqs) a
          = reqs.map (fun r => (r.id, mkMemory r [])) := by
  obtain ⟨rd', h1, h2, h3, h4, h5⟩ := storeMany_state a reqs initState emptyRedis rfl hA hid
    (fun r _ => rfl) (fun r _ => rfl) (fun r _ => rfl) (fun r _ => rfl)
  exact ⟨rd', h1, by simpa using h2, by simpa using h3, by simpa using h4,
    by simpa using h5⟩

/-- Looking up a batch record by its key, for pairwise distinct ids. -/
theorem records_lookup_of_batch (a : String) (reqs : List StoreReq)
    (hid : reqs.Pairwise (fun r s => r.id ≠ s.id)) {r : StoreReq} (hr : r ∈ reqs) :
    lookupA (a, r.id) (reqs.map (fun s => ((a, s.id), mkMemory s [])))
      = some (mkMemory r []) := by
  apply lookupA_of_mem_pairwise
  · rw [List.pairwise_map]
    exact hid.imp (fun h => by simp [h])
  · exact List.mem_map_of_mem _ hr

/-! ## C4: recency ordering -/

/-- C4: storing a batch of records for one agent (pairwise distinct
fresh ids, strictly increasing timestamps) and retrieving with
`limit = N` returns exactly those records (as a permutation) in strictly
decreasing `created_at` order — on the Redis path and on the
fallback-cache path alike. -/
theorem recency_ordering (a : String) (reqs : List StoreReq)
    (hA : ∀ r ∈ reqs, r.agent_id = a)
    (hid : reqs.Pairwise (fun r s => r.id ≠ s.id))
    (hts : reqs.Pairwise (fun r s => r.ts < s.ts)) :
    (retrieveRecentMemories (storeMany initState reqs) true a reqs.length none
        none).Perm (reqs.map (fun r => mkMemory r []))
    ∧ (retrieveRecentMemories (storeMany initState reqs) true a reqs.length none
        none).Pairwise (fun m m' => m'.created_at < m.created_at)
    ∧ (retrieveRecentMemories (storeMany initState reqs) false a reqs.length none
        none).Perm (reqs.map (fun r => mkMemory r []))
    ∧ (retrieveRecentMemories (storeMany initState reqs) false a reqs.length none
        none).Pairwise (fun m m' => m'.created_at < m.created_at) := by
  obtain ⟨rd', h1, h2, h3, h4, h5⟩ := storeMany_init a reqs hA hid
  set stF := storeMany initState reqs with hstF
  set Z := reqs.map (fun r => (r.id, r.ts)) with hZdef
  set S := zscoreSortedDesc Z with hSdef
  have hSperm : S.Perm Z := zscoreSortedDesc_perm Z
  have hSlen : S.length = reqs.length := by
    rw [hSperm.length_eq, hZdef, List.length_map]
  set g : String → Memory := fun i => (lookupA (a, i) rd'.records).getD default with hgdef
  have hglook : ∀ r ∈ reqs, lookupA (a, r.id) rd'.records = some (mkMemory r []) := by
    intro r hr
    rw [h2]
    exact records_lookup_of_batch a reqs hid hr
  have hg : ∀ r ∈ reqs, g r.id = mkMemory r [] := by
    intro r hr
    show (lookupA (a, r.id) rd'.records).getD default = mkMemory r []
    rw [hglook r hr]
    rfl
  have hSmem : ∀ p ∈ S, ∃ r, r ∈ reqs ∧ p = (r.id, r.ts) := by
    intro p hp
    have hz : p ∈ Z := hSperm.mem_iff.mp hp
    rw [hZdef] at hz
    obtain ⟨r, hr, hrp⟩ := List.mem_map.mp hz
    exact ⟨r, hr, hrp.symm⟩
  have hids : ∀ i ∈ S.map Prod.fst, lookupA (a, i) rd'.records = some (g i) := by
    intro i hi
    obtain ⟨p, hpS, hpi⟩ := List.mem_map.mp hi
    obtain ⟨r, hr, hpr⟩ := hSmem p hpS
    subst hpr
    cases hpi
    rw [hglook r hr, hg r hr]
  have hranged : (if reqs.length = 0 then S else S.take (reqs.length * 2)) = S := by
    by_cases h : reqs.length = 0
    · simp [h]
    · rw [if_neg h]
      exact List.take_of_length_le (by omega)
  have hres : retrieveRecentMemories stF true a reqs.length none none
      = (S.map Prod.fst).map g := by
    have hlen2 : ([] : List Memory).length + (S.map Prod.fst).length ≤ reqs.length := by
      simp [hSlen]
    unfold retrieveRecentMemories
    rw [h1]
    simp only [h3]
    rw [hranged, fetchFiltered_all_found _ g reqs.length _ [] hids hlen2]
    simp
  have hmapZ : Z.map (g ∘ Prod.fst) = reqs.map (fun r => mkMemory r []) := by
    rw [hZdef, List.map_map]
    exact List.map_congr_left (fun r hr => hg r hr)
  have hpermRedis : ((S.map Prod.fst).map g).Perm (reqs.map fun r => mkMemory r []) := by
    rw [List.map_map]
    exact hmapZ ▸ (hSperm.map (g ∘ Prod.fst))
  have hSle : S.Pairwise (fun p q => q.2 ≤ p.2) := zscoreSortedDesc_sorted Z
  have hZne : Z.Pairwise (fun p q => p.2 ≠ q.2) := by
    rw [hZdef, List.pairwise_map]
    exact hts.imp (fun h => ne_of_lt h)
  have hSne : S.Pairwise (fun p q => p.2 ≠ q.2) :=
    (hSperm.pairwise_iff (fun h => Ne.symm h)).mpr hZne
  have hSstrict : S.Pairwise (fun p q => q.2 < p.2) :=
    pairwise_strict_of_le_ne (f := Prod.snd) hSle hSne
  have hcreated : ∀ p ∈ S, (g p.1).created_at = p.2 := by
    intro p hp
    obtain ⟨r, hr, hpr⟩ := hSmem p hp
    subst hpr
    rw [hg r hr]
    rfl
  have hpwRedis : ((S.map Prod.fst).map g).Pairwise
      (fun m m' => m'.created_at < m.created_at) := by
    rw [List.map_map, List.pairwise_map]
    refine List.Pairwise.imp_of_mem ?_ hSstrict
    intro p q hp hq h
    show (g q.1).created_at < (g p.1).created_at
    rw [hcreated p hp, hcreated q hq]
    exact h
  -- the fallback path
  set V := reqs.map (fun r => mkMemory r []) with hVdef
  have hVal : (getAgentCache stF a).map Prod.snd = V := by
    rw [h5, hVdef, List.map_map]
    rfl
  set SF := List.insertionSort (fun x y : Memory => y.created_at ≤ x.created_at) V
    with hSFdef
  have hSFperm : SF.Perm V := List.perm_insertionSort _ V
  have hfb : retrieveRecentMemories stF false a reqs.length none none = SF := by
    unfold retrieveRecentMemories
    rw [h1]
    show retrieveFromMemory stF a "timestamp" reqs.length = SF
    unfold retrieveFromMemory
    rw [hVal]
    simp only [reduceIte]
    have hlenV :
        (List.insertionSort (fun x y : Memory => y.created_at ≤ x.created_at) V).length
          ≤ reqs.length := by
      rw [(List.perm_insertionSort _ V).length_eq, hVdef, List.length_map]
    rw [List.take_of_length_le hlenV]
  have hSFle : SF.Pairwise (fun x y : Memory => y.created_at ≤ x.created_at) := by
    haveI : IsTotal Memory (fun x y : Memory => y.created_at ≤ x.created_at) :=
      ⟨fun x y => le_total y.created_at x.created_at⟩
    haveI : IsTrans Memory (fun x y : Memory => y.created_at ≤ x.created_at) :=
      ⟨fun x y z hxy hyz => le_trans hyz hxy⟩
    exact List.sorted_insertionSort _ V
  have hVne : V.Pairwise (fun m m' => m.created_at ≠ m'.created_at) := by
    rw [hVdef, List.pairwise_map]
    exact hts.imp (fun h => ne_of_lt h)
  have hSFne : SF.Pairwise (fun m m' => m.created_at ≠ m'.created_at) :=
    (hSFperm.pairwise_iff (fun h => Ne.symm h)).mpr hVne
  have hSFstrict : SF.Pairwise (fun m m' => m'.created_at < m.created_at) :=
    pairwise_strict_of_le_ne (f := Memory.created_at) hSFle hSFne
  exact ⟨hres ▸ hpermRedis, hres ▸ hpwRedis, hfb ▸ hSFperm, hfb ▸ hSFstrict⟩

/-- Witness for C4 at a concrete two-record batch. -/
theorem recency_ordering_witness :
    (retrieveRecentMemories (storeMany initState [sReq 1 "c1" 0 10, sReq 2 "c2" 1 20])
        true "a" ([sReq 1 "c1" 0 10, sReq 2 "c2" 1 20] : List StoreReq).length none
        none).Perm
      (([sReq 1 "c1" 0 10, sReq 2 "c2" 1 20] : List StoreReq).map
        (fun r => mkMemory r []))
    ∧ (retrieveRecentMemories (storeMany initState [sReq 1 "c1" 0 10, sReq 2 "c2" 1 20])
        true "a" ([sReq 1 "c1" 0 10, sReq 2 "c2" 1 20] : List StoreReq).length none
        none).Pairwise (fun m m' => m'.created_at < m.created_at)
    ∧ (retrieveRecentMemories (storeMany initState [sReq 1 "c1" 0 10, sReq 2 "c2" 1 20])
        false "a" ([sReq 1 "c1" 0 10, sReq 2 "c2" 1 20] : List StoreReq).length none
        none).Perm
      (([sReq 1 "c1" 0 10, sReq 2 "c2" 1 20] : List StoreReq).map
        (fun r => mkMemory r []))
    ∧ (retrieveRecentMemories (storeMany initState [sReq 1 "c1" 0 10, sReq 2 "c2" 1 20])
        false "a" ([sReq 1 "c1" 0 10, sReq 2 "c2" 1 20] : List StoreReq).length none
        none).Pairwise (fun m m' => m'.created_at < m.created_at) :=
  recency_ordering "a" [sReq 1 "c1" 0 10, sReq 2 "c2" 1 20]
    (by decide) (by decide) (by decide)

/-! ## The keyword-search ranking -/

theorem searchKeyLe_total (p q : Bool × ℚ) : searchKeyLe p q ∨ searchKeyLe q p := by
  obtain ⟨b1, q1⟩ := p
  obtain ⟨b2, q2⟩ := q
  unfold searchKeyLe
  cases b1 <;> cases b2 <;> rcases le_total q1 q2 with h | h <;> simp [h]

theorem searchKeyLe_trans {p q r : Bool × ℚ} (h1 : searchKeyLe p q)
    (h2 : searchKeyLe q r) : searchKeyLe p r := by
  obtain ⟨b1, q1⟩ := p
  obtain ⟨b2, q2⟩ := q
  obtain ⟨b3, q3⟩ := r
  unfold searchKeyLe at h1 h2 ⊢
  rcases h1 with ⟨hp1, hp2⟩ | ⟨hp1, hp2⟩ <;> rcases h2 with ⟨hq1, hq2⟩ | ⟨hq1, hq2⟩ <;>
    subst_vars <;> simp_all
  exact le_trans hp2 hq2

theorem searchRank_perm (q : String) (l : List Memory) : (searchRank q l).Perm l :=
  List.perm_insertionSort _ l

theorem searchRank_sorted (q : String) (l : List Memory) :
    (searchRank q l).Pairwise
      (fun x y => searchKeyLe (searchKey q y) (searchKey q x)) := by
  haveI : IsTotal Memory (fun x y => searchKeyLe (searchKey q y) (searchKey q x)) :=
    ⟨fun x y => (searchKeyLe_total (searchKey q x) (searchKey q y)).symm⟩
  haveI : IsTrans Memory (fun x y => searchKeyLe (searchKey q y) (searchKey q x)) :=
    ⟨fun x y z hxy hyz => searchKeyLe_trans hyz hxy⟩
  exact List.sorted_insertionSort _ l

/-- The filter/rank/truncate pipeline shared by both keyword-search
paths, for any list of candidate records: every result is a match from
the candidates, at most `limit` results, ranked by importance descending
(ties by the key tuple), and the result is a permutation of all matches
whenever they fit into the limit. -/
theorem searchPipeline_spec (q : String) (ms : List Memory) (limit : Nat) :
    (∀ m ∈ (searchRank q (ms.filter (fun m => containsSub q (pyLower m.content)))).take
        limit, m ∈ ms ∧ containsSub q (pyLower m.content) = true)
    ∧ ((searchRank q (ms.filter (fun m => containsSub q (pyLower m.content)))).take
        limit).length ≤ limit
    ∧ ((searchRank q (ms.filter (fun m => containsSub q (pyLower m.content)))).take
        limit).Pairwise (fun x y => y.importance ≤ x.importance)
    ∧ ((ms.filter (fun m => containsSub q (pyLower m.content))).length ≤ limit →
        ((searchRank q (ms.filter (fun m => containsSub q (pyLower m.content)))).take
          limit).Perm (ms.filter (fun m => containsSub q (pyLower m.content)))) := by
  set results := ms.filter (fun m => containsSub q (pyLower m.content)) with hresults
  set sorted := searchRank q results with hsorted
  have hperm : sorted.Perm results := searchRank_perm q results
  refine ⟨?_, ?_, ?_, ?_⟩
  · intro m hm
    have hms : m ∈ sorted := List.take_subset _ _ hm
    have hmr : m ∈ results := hperm.mem_iff.mp hms
    rw [hresults] at hmr
    exact ⟨(List.mem_filter.mp hmr).1, (List.mem_filter.mp hmr).2⟩
  · rw [List.length_take]
    exact min_le_left _ _
  · apply List.Pairwise.sublist (List.take_sublist _ _)
    refine List.Pairwise.imp_of_mem ?_ (searchRank_sorted q results)
    intro x y hx hy hxy
    have hcx : containsSub q (pyLower x.content) = true := by
      have := hperm.mem_iff.mp hx
      rw [hresults] at this
      exact (List.mem_filter.mp this).2
    have hcy : containsSub q (pyLower y.content) = true := by
      have := hperm.mem_iff.mp hy
      rw [hresults] at this
      exact (List.mem_filter.mp this).2
    simp only [searchKeyLe, searchKey] at hxy
    rw [hcx, hcy] at hxy
    rcases hxy with ⟨h1, _⟩ | ⟨_, h2⟩
    · cases h1
    · exact h2
  · intro hlen
    have hl2 : sorted.length ≤ limit := by rw [hperm.length_eq]; exact hlen
    rw [List.take_of_length_le hl2]
    exact hperm

/-- The pipeline conclusions transfer to any permutation of the stored
batch. -/
theorem searchPipeline_perm_spec (q : String) (ms stored : List Memory)
    (hperm : ms.Perm stored) (limit : Nat) :
    (∀ m ∈ (searchRank q (ms.filter (fun m => containsSub q (pyLower m.content)))).take
        limit, m ∈ stored ∧ containsSub q (pyLower m.content) = true)
    ∧ ((searchRank q (ms.filter (fun m => containsSub q (pyLower m.content)))).take
        limit).length ≤ limit
    ∧ ((searchRank q (ms.filter (fun m => containsSub q (pyLower m.content)))).take
        limit).Pairwise (fun x y => y.importance ≤ x.importance)
    ∧ ((stored.filter (fun m => containsSub q (pyLower m.content))).length ≤ limit →
        ((searchRank q (ms.filter (fun m => containsSub q (pyLower m.content)))).take
          limit).Perm (stored.filter (fun m => containsSub q (pyLower m.content)))) := by
  obtain ⟨hmem, hlen, hpw, hper⟩ := searchPipeline_spec q ms limit
  have hfperm := hperm.filter (fun m => containsSub q (pyLower m.content))
  refine ⟨?_, hlen, hpw, ?_⟩
  · intro m hm
    exact ⟨hperm.mem_iff.mp (hmem m hm).1, (hmem m hm).2⟩
  · intro hl
    exact (hper (by rw [hfperm.length_eq]; exact hl)).trans hfperm

/-! ## C5: keyword search -/

/-- C5: after storing a batch for one agent, keyword search (the
non-semantic path, on Redis or on the fallback cache) returns only
stored records whose content contains the query as a case-insensitive
substring, at most `limit` of them, ranked by importance descending
(the first component of the ranking tuple is constant on matches, so
ties are broken by higher importance); when all matches fit into the
limit the result is exactly the matches, as a permutation. -/
theorem keyword_search_exact (a query : String) (reqs : List StoreReq) (limit : Nat)
    (redisOk : Bool)
    (hA : ∀ r ∈ reqs, r.agent_id = a)
    (hid : reqs.Pairwise (fun r s => r.id ≠ s.id)) :
    (∀ m ∈ searchMemoriesWithKeywords (storeMany initState reqs) redisOk a query limit,
        m ∈ reqs.map (fun r => mkMemory r [])
        ∧ containsSub (pyLower query) (pyLower m.content) = true)
    ∧ (searchMemoriesWithKeywords (storeMany initState reqs) redisOk a query
        limit).length ≤ limit
    ∧ (searchMemoriesWithKeywords (storeMany initState reqs) redisOk a query
        limit).Pairwise (fun x y => y.importance ≤ x.importance)
    ∧ (((reqs.map (fun r => mkMemory r [])).filter
          (fun m => containsSub (pyLower query) (pyLower m.content))).length ≤ limit →
        (searchMemoriesWithKeywords (storeMany initState reqs) redisOk a query
          limit).Perm
          ((reqs.map (fun r => mkMemory r [])).filter
            (fun m => containsSub (pyLower query) (pyLower m.content)))) := by
  obtain ⟨rd', h1, h2, h3, h4, h5⟩ := storeMany_init a reqs hA hid
  set stF := storeMany initState reqs with hstF
  set stored := reqs.map (fun r => mkMemory r []) with hstored
  cases redisOk with
  | false =>
    have hms : (getAgentCache stF a).map Prod.snd = stored := by
      rw [h5, hstored, List.map_map]
      rfl
    have hpath : searchMemoriesWithKeywords stF false a query limit
        = (searchRank (pyLower query)
            (stored.filter
              (fun m => containsSub (pyLower query) (pyLower m.content)))).take limit := by
      unfold searchMemoriesWithKeywords
      rw [h1]
      show searchInMemory stF a (pyLower query) limit = _
      unfold searchInMemory
      rw [hms]
    rw [hpath]
    exact searchPipeline_perm_spec (pyLower query) stored stored (List.Perm.refl _) limit
  | true =>
    set Z := reqs.map (fun r => (r.id, r.ts)) with hZdef
    set SA := zscoreSortedAsc Z with hSAdef
    have hSAperm : SA.Perm Z := zscoreSortedAsc_perm Z
    set g : String → Memory := fun i => (lookupA (a, i) rd'.records).getD default with hgdef
    have hglook : ∀ r ∈ reqs, lookupA (a, r.id) rd'.records = some (mkMemory r []) := by
      intro r hr
      rw [h2]
      exact records_lookup_of_batch a reqs hid hr
    have hg : ∀ r ∈ reqs, g r.id = mkMemory r [] := by
      intro r hr
      show (lookupA (a, r.id) rd'.records).getD default = mkMemory r []
      rw [hglook r hr]
      rfl
    have hSAmem : ∀ p ∈ SA, ∃ r, r ∈ reqs ∧ p = (r.id, r.ts) := by
      intro p hp
      have hz : p ∈ Z := hSAperm.mem_iff.mp hp
      rw [hZdef] at hz
      obtain ⟨r, hr, hrp⟩ := List.mem_map.mp hz
      exact ⟨r, hr, hrp.symm⟩
    have hids : ∀ i ∈ SA.map Prod.fst, lookupA (a, i) rd'.records = some (g i) := by
      intro i hi
      obtain ⟨p, hpS, hpi⟩ := List.mem_map.mp hi
      obtain ⟨r, hr, hpr⟩ := hSAmem p hpS
      subst hpr
      cases hpi
      rw [hglook r hr, hg r hr]
    have hmsperm : ((SA.map Prod.fst).map g).Perm stored := by
      rw [List.map_map]
      have hmapZ : Z.map (g ∘ Prod.fst) = stored := by
        rw [hZdef, hstored, List.map_map]
        exact List.map_congr_left (fun r hr => hg r hr)
      exact hmapZ ▸ (hSAperm.map (g ∘ Prod.fst))
    have hpath : searchMemoriesWithKeywords stF true a query limit
        = (searchRank (pyLower query)
            (((SA.map Prod.fst).map g).filter
              (fun m => containsSub (pyLower query) (pyLower m.content)))).take limit := by
      unfold searchMemoriesWithKeywords
      rw [h1]
      simp only [h3]
      rw [filterMap_eq_map_of_all_some _ g (SA.map Prod.fst) hids]
      simp
    rw [hpath]
    exact searchPipeline_perm_spec (pyLower query) ((SA.map Prod.fst).map g) stored
      hmsperm limit

/-- Witness for C5 at the spec's concrete refund example (importances 0
and 1, query in different case). -/
theorem keyword_search_exact_witness :
    (∀ m ∈ searchMemoriesWithKeywords
        (storeMany initState
          [sReq 1 "please Refund my order" 0 10, sReq 2 "where is my package" 1 20,
            sReq 3 "refund status" 1 30]) true "a" "REFUND" 5,
        m ∈ ([sReq 1 "please Refund my order" 0 10, sReq 2 "where is my package" 1 20,
            sReq 3 "refund status" 1 30] : List StoreReq).map (fun r => mkMemory r [])
        ∧ containsSub (pyLower "REFUND") (pyLower m.content) = true)
    ∧ (searchMemoriesWithKeywords
        (storeMany initState
          [sReq 1 "please Refund my order" 0 10, sReq 2 "where is my package" 1 20,
            sReq 3 "refund status" 1 30]) true "a" "REFUND" 5).length ≤ 5
    ∧ (searchMemoriesWithKeywords
        (storeMany initState
          [sReq 1 "please Refund my order" 0 10, sReq 2 "where is my package" 1 20,
            sReq 3 "refund status" 1 30]) true "a" "REFUND" 5).Pairwise
        (fun x y => y.importance ≤ x.importance)
    ∧ ((([sReq 1 "please Refund my order" 0 10, sReq 2 "where is my package" 1 20,
            sReq 3 "refund status" 1 30] : List StoreReq).map (fun r => mkMemory r [])
          |>.filter (fun m => containsSub (pyLower "REFUND") (pyLower m.content))).length
            ≤ 5 →
        (searchMemoriesWithKeywords
          (storeMany initState
            [sReq 1 "please Refund my order" 0 10, sReq 2 "where is my package" 1 20,
              sReq 3 "refund status" 1 30]) true "a" "REFUND" 5).Perm
          (([sReq 1 "please Refund my order" 0 10, sReq 2 "where is my package" 1 20,
              sReq 3 "refund status" 1 30] : List StoreReq).map (fun r => mkMemory r [])
            |>.filter (fun m => containsSub (pyLower "REFUND") (pyLower m.content)))) :=
  keyword_search_exact "a" "REFUND"
    [sReq 1 "please Refund my order" 0 10, sReq 2 "where is my package" 1 20,
      sReq 3 "refund status" 1 30] 5 true (by decide) (by decide)
